import Mathlib

/-!
Verification of the DataFormsJS web-component utility functions
(`src/js/web-components/utils.js`) and of the `<animation-service>`
component (`src/js/web-components/animation-service.js`).

JavaScript strings are modelled as lists of characters (`Str`), JavaScript
values flowing through the data-binding helpers as the inductive `JsValue`
(with an explicit `jsUndefined` constructor for `undefined`), and DOM element
attribute collections as association lists from attribute names to string
values.  Stateful pieces (the polyfill probe cache, the readiness polling
loop, the intersection-observer callback) are modelled as explicit state
transitions.
-/

namespace DataFormsJS

/-- A JavaScript string, modelled as its list of characters. -/
abbrev Str := List Char

/-- JavaScript values that flow through the data-binding helpers:
`undefined`, `null`, strings, (integer) numbers, and plain objects
modelled as association lists of fields. -/
inductive JsValue where
  | jsUndefined : JsValue
  | jsNull : JsValue
  | str (s : Str) : JsValue
  | num (n : Int) : JsValue
  | obj (fields : List (Str × JsValue)) : JsValue

/-- Constructor test for `undefined`; mirrors `value === undefined`. -/
def isUndefined : JsValue → Bool
  | .jsUndefined => true
  | _ => false

/-- Mirrors `typeof value === 'object' && value !== null`: true exactly for
plain objects (`null` has `typeof` `'object'` but fails the second test). -/
def isObjectNotNull : JsValue → Bool
  | .obj _ => true
  | _ => false

/-- First-match association-list lookup of an object field. -/
def lookupField : List (Str × JsValue) → Str → Option JsValue
  | [], _ => none
  | (k, v) :: rest, key => if k = key then some v else lookupField rest key

/-- Mirrors the JavaScript property read `value[key]`: a missing field of an
object reads as `undefined`; the callers only index values that passed
`isObjectNotNull`. -/
def jsIndex (v : JsValue) (key : Str) : JsValue :=
  match v with
  | .obj fields => (lookupField fields key).getD .jsUndefined
  | _ => .jsUndefined

/-- Mirrors JavaScript `String(value)` coercion for the modelled values. -/
def jsToString : JsValue → Str
  | .jsUndefined => "undefined".data
  | .jsNull => "null".data
  | .str s => s
  | .num n => (toString n).data
  | .obj _ => "[object Object]".data

/-! ### `escapeHtml` (utils.js lines 90-100) -/

/-- Global single-character replacement, the meaning of
`String.prototype.replace` with a global single-character pattern and a
plain replacement string: every occurrence of `c` becomes `rep`. -/
def replaceChar (c : Char) (rep : Str) : Str → Str
  | [] => []
  | x :: xs => (if x = c then rep else [x]) ++ replaceChar c rep xs

/-- The chain of five global replacements performed by `escapeHtml` on the
string form of its argument, in source order: `&`, `"`, `'`, `<`, `>`. -/
def escapeHtmlStr (s : Str) : Str :=
  replaceChar '>' "&gt;".data
    (replaceChar '<' "&lt;".data
      (replaceChar '\'' "&#039;".data
        (replaceChar '"' "&quot;".data
          (replaceChar '&' "&amp;".data s))))

/-- `escapeHtml` from utils.js: `undefined`, `null` and numbers are returned
unchanged; anything else is coerced to a string and run through the five
replacements. -/
def escapeHtml (text : JsValue) : JsValue :=
  match text with
  | .jsUndefined => text
  | .jsNull => text
  | .num _ => text
  | t => .str (escapeHtmlStr (jsToString t))

/-- The character-wise escaping map described by the specification: the five
special characters map to their entities, every other character to itself. -/
def escChar (c : Char) : Str :=
  if c = '&' then "&amp;".data
  else if c = '"' then "&quot;".data
  else if c = '\'' then "&#039;".data
  else if c = '<' then "&lt;".data
  else if c = '>' then "&gt;".data
  else [c]

/-- Character-wise single-pass escaping, the specification's description of
`escapeHtml` on strings. -/
def escapeHtmlSpec : Str → Str
  | [] => []
  | c :: rest => escChar c ++ escapeHtmlSpec rest

theorem replaceChar_append (c : Char) (rep : Str) (a b : Str) :
    replaceChar c rep (a ++ b) = replaceChar c rep a ++ replaceChar c rep b := by
  induction a with
  | nil => rfl
  | cons x xs ih => simp [replaceChar, ih, List.append_assoc]

theorem escapeHtmlStr_append (a b : Str) :
    escapeHtmlStr (a ++ b) = escapeHtmlStr a ++ escapeHtmlStr b := by
  simp [escapeHtmlStr, replaceChar_append]

theorem escapeHtmlStr_single (c : Char) : escapeHtmlStr [c] = escChar c := by
  by_cases h1 : c = '&'
  · subst h1; rfl
  · by_cases h2 : c = '"'
    · subst h2; rfl
    · by_cases h3 : c = '\''
      · subst h3; rfl
      · by_cases h4 : c = '<'
        · subst h4; rfl
        · by_cases h5 : c = '>'
          · subst h5; rfl
          · simp [escapeHtmlStr, replaceChar, escChar, h1, h2, h3, h4, h5]

theorem escapeHtmlStr_eq_spec (s : Str) : escapeHtmlStr s = escapeHtmlSpec s := by
  induction s with
  | nil => rfl
  | cons c rest ih =>
      have h : escapeHtmlStr (c :: rest) = escapeHtmlStr [c] ++ escapeHtmlStr rest := by
        have := escapeHtmlStr_append [c] rest
        simpa using this
      rw [h, escapeHtmlStr_single, ih]
      rfl

/-! ### `getBindValue` (utils.js lines 206-213) -/

/-- Splitting a string at every occurrence of a separator character, the
meaning of `key.split('.')` for a one-character separator: the empty string
splits to `[""]`, and separators at the ends produce empty pieces. -/
def splitOnChar (c : Char) : Str → List Str
  | [] => [[]]
  | x :: xs =>
    match splitOnChar c xs with
    | [] => if x = c then [[], []] else [[x]]
    | y :: ys => if x = c then [] :: y :: ys else (x :: y) :: ys

/-- The root object of the dot-path walk in `getBindValue`: the global
`window` object exactly when the key has more than one dot-separated part
and the first part is `window`; otherwise the `data` argument. -/
def getBindRoot (win data : JsValue) (keys : List Str) : JsValue :=
  match keys with
  | k0 :: _ :: _ => if k0 = "window".data then win else data
  | _ => data

/-- `getBindValue(data, key)` from utils.js, with the global `window` object
passed explicitly.  The key is split on `.`; the walk starts at `window`
when there is more than one part and the first is `window`, otherwise at
`data`; each step indexes the current value when it is a non-null object and
otherwise yields `null`; a final `undefined` is normalised to `null`. -/
def getBindValue (win data : JsValue) (key : Str) : JsValue :=
  let keys := splitOnChar '.' key
  let value := keys.foldl
    (fun value k => if isObjectNotNull value then jsIndex value k else .jsNull)
    (getBindRoot win data keys)
  if isUndefined value then .jsNull else value

/-! ### `bindAttrTmpl` (utils.js lines 226-262) -/

/-- Index of the first occurrence of a character, the meaning of the
JavaScript `String.prototype.indexOf` calls in the parse loop (`-1` is
modelled as `none`). -/
def indexOfChar : Str → Char → Option Nat
  | [], _ => none
  | x :: xs, c => if x = c then some 0 else (indexOfChar xs c).map (· + 1)

/-- One iteration of the parse loop in `bindAttrTmpl`: find the first `[`
and the first `]`; stop (`none`) when either is missing or the `]` comes
first; otherwise replace the bracketed segment by the bound value (with the
source's `undefined`-to-empty-string fallback) coerced to a string. -/
def bindStep (win data : JsValue) (value : Str) : Option Str :=
  match indexOfChar value '[', indexOfChar value ']' with
  | some posStart, some posEnd =>
    if posEnd < posStart then none
    else
      let key := (value.drop (posStart + 1)).take (posEnd - (posStart + 1))
      let boundValue := getBindValue win data key
      let bound := if isUndefined boundValue then [] else jsToString boundValue
      some (value.take posStart ++ bound ++ value.drop (posEnd + 1))
  | _, _ => none

/-- The `while (loopCount < maxLoop)` parse loop of `bindAttrTmpl`, with the
remaining iteration budget as fuel: stop when the budget is exhausted or
when `bindStep` reports no well-formed bracket pair. -/
def parseLoop (win data : JsValue) : Nat → Str → Str
  | 0, value => value
  | n + 1, value =>
    match bindStep win data value with
    | none => value
    | some v => parseLoop win data n v

/-- The safety cap on the parse loop of `bindAttrTmpl`. -/
def maxLoop : Nat := 100

/-- A full run of the parse loop on one template string. -/
def bindTemplate (win data : JsValue) (value : Str) : Str :=
  parseLoop win data maxLoop value

/-- Number of substitution iterations the parse loop actually performs. -/
def loopIterations (win data : JsValue) : Nat → Str → Nat
  | 0, _ => 0
  | n + 1, value =>
    match bindStep win data value with
    | none => 0
    | some v => loopIterations win data n v + 1

/-- A DOM element's attribute collection: an association list from
attribute names to string values. -/
abbrev Attrs := List (Str × Str)

/-- `element.getAttribute(name)`: `null` (here `none`) when absent. -/
def getAttribute : Attrs → Str → Option Str
  | [], _ => none
  | (n, v) :: rest, name => if n = name then some v else getAttribute rest name

/-- `element.setAttribute(name, v)`: replace the existing value in place, or
append a new attribute. -/
def setAttribute : Attrs → Str → Str → Attrs
  | [], name, v => [(name, v)]
  | (n, w) :: rest, name, v =>
    if n = name then (n, v) :: rest else (n, w) :: setAttribute rest name v

/-- JavaScript `String.prototype.trim` on the modelled strings. -/
def trimStr (s : Str) : Str :=
  ((s.dropWhile Char.isWhitespace).reverse.dropWhile Char.isWhitespace).reverse

/-- The body of the `for (const attr of attributes)` loop in `bindAttrTmpl`
for one target attribute `attr`: read the saved template from
`attribute + '-' + attr`, saving the current value of `attr` there on the
first call; when a template is available, run the parse loop on it and write
the result back to `attr`. -/
def bindAttrOne (win data : JsValue) (attrName : Str) (el : Attrs) (attr : Str) : Attrs :=
  let savedName := attrName ++ "-".data ++ attr
  match getAttribute el savedName with
  | some value => setAttribute el attr (bindTemplate win data value)
  | none =>
    match getAttribute el attr with
    | none => el
    | some value =>
      let el1 := setAttribute el savedName value
      setAttribute el1 attr (bindTemplate win data value)

/-- `bindAttrTmpl(element, attribute, data)` from utils.js: split the value
of `attribute` on commas, trim each part, and process the parts in order.
When the element lacks `attribute` entirely the JavaScript would throw a
`TypeError` on `null.split`, modelled as `none`. -/
def bindAttrTmpl (win data : JsValue) (el : Attrs) (attrName : Str) : Option Attrs :=
  match getAttribute el attrName with
  | none => none
  | some s =>
    let attributes := (splitOnChar ',' s).map trimStr
    some (attributes.foldl (bindAttrOne win data attrName) el)

/-! ### Helper lemmas for the binding functions -/

theorem ne_undef_of_isUndefined_false {v : JsValue} (h : isUndefined v = false) : v ≠ .jsUndefined := by
  intro hv
  subst hv
  simp [isUndefined] at h

theorem isUndefined_normalize (v : JsValue) :
    isUndefined (if isUndefined v = true then JsValue.jsNull else v) = false := by
  cases v <;> simp [isUndefined]

theorem isUndefined_getBindValue (win data : JsValue) (key : Str) :
    isUndefined (getBindValue win data key) = false := by
  simp only [getBindValue]
  exact isUndefined_normalize _

theorem indexOfChar_eq_of_first (c : Char) :
    ∀ (l : Str) (i : Nat), l.get? i = some c →
      (∀ j, j < i → l.get? j ≠ some c) → indexOfChar l c = some i := by
  intro l
  induction l with
  | nil => intro i h _; simp at h
  | cons x xs ih =>
    intro i h hfirst
    cases i with
    | zero =>
      have hx : x = c := by simpa using h
      simp [indexOfChar, hx]
    | succ i' =>
      have hx : ¬ (x = c) := by
        have h0 := hfirst 0 (Nat.succ_pos i')
        simpa using h0
      have hxs : indexOfChar xs c = some i' := by
        apply ih
        · simpa using h
        · intro j hj
          have hj' := hfirst (j + 1) (Nat.succ_lt_succ hj)
          simpa using hj'
      simp [indexOfChar, hx, hxs]

theorem loopIterations_le (win data : JsValue) :
    ∀ (fuel : Nat) (value : Str), loopIterations win data fuel value ≤ fuel := by
  intro fuel
  induction fuel with
  | zero => intro value; simp [loopIterations]
  | succ n ih =>
    intro value
    simp only [loopIterations]
    cases hb : bindStep win data value with
    | none => simp
    | some v => exact Nat.succ_le_succ (ih v)

theorem splitOnChar_eq_single (c : Char) :
    ∀ (s : Str), c ∉ s → splitOnChar c s = [s] := by
  intro s
  induction s with
  | nil => intro _; rfl
  | cons x xs ih =>
    intro h
    have hx : ¬ (x = c) := by
      intro hxc
      exact h (by simp [hxc])
    have hxs : c ∉ xs := fun hc => h (List.mem_cons_of_mem x hc)
    simp [splitOnChar, ih hxs, hx]

theorem getAttribute_setAttribute_self (el : Attrs) (name v : Str) :
    getAttribute (setAttribute el name v) name = some v := by
  induction el with
  | nil => simp [setAttribute, getAttribute]
  | cons p rest ih =>
    by_cases h : p.1 = name
    · simp [setAttribute, getAttribute, h]
    · simp [setAttribute, getAttribute, h, ih]

theorem getAttribute_setAttribute_ne (el : Attrs) (name k v : Str) (h : k ≠ name) :
    getAttribute (setAttribute el name v) k = getAttribute el k := by
  have hnk : ¬ (name = k) := fun hh => h hh.symm
  induction el with
  | nil => simp [setAttribute, getAttribute, hnk]
  | cons p rest ih =>
    obtain ⟨n, w⟩ := p
    by_cases hp : n = name
    · simp [setAttribute, getAttribute, hp, hnk]
    · by_cases hk : n = k
      · simp [setAttribute, getAttribute, hp, hk, h]
      · simp [setAttribute, getAttribute, hp, hk, ih]

theorem setAttribute_eq_self (el : Attrs) (name v : Str)
    (h : getAttribute el name = some v) : setAttribute el name v = el := by
  induction el with
  | nil => simp [getAttribute] at h
  | cons p rest ih =>
    obtain ⟨n, w⟩ := p
    by_cases hp : n = name
    · have hv : w = v := by
        have h2 := h
        simp [getAttribute, hp] at h2
        exact h2
      simp [setAttribute, hp, ← hv]
    · have h' : getAttribute rest name = some v := by
        simpa [getAttribute, hp] using h
      simp [setAttribute, hp, ih h']

/-- C1: each iteration of the parse loop in `bindAttrTmpl` locates the
first `[` and the first `]` of the current template string and, when the
`]` occurs after the `[`, replaces the bracket-delimited segment by the
string form of `getBindValue(data, key)` for the enclosed key; the lookup
is rooted at `window` exactly when the dotted key has more than one part
and starts with `window`; and after the loop `bindAttrOne` writes the fully
parsed template back as the element's target attribute value. -/
theorem bindAttrTmpl_substitutes_first_bracket_pair (win data : JsValue) :
    (∀ (value : Str) (s e : Nat),
      value.get? s = some '[' →
      (∀ j, j < s → value.get? j ≠ some '[') →
      value.get? e = some ']' →
      (∀ j, j < e → value.get? j ≠ some ']') →
      s < e →
      bindStep win data value =
        some (value.take s
          ++ jsToString (getBindValue win data ((value.drop (s + 1)).take (e - (s + 1))))
          ++ value.drop (e + 1)))
    ∧ (∀ (k0 : Str) (rest : List Str), rest ≠ [] →
        getBindRoot win data (k0 :: rest) = if k0 = "window".data then win else data)
    ∧ (∀ (el : Attrs) (attrName attr t : Str),
        getAttribute el (attrName ++ "-".data ++ attr) = some t →
        getAttribute (bindAttrOne win data attrName el attr) attr =
          some (bindTemplate win data t)) := by
  refine ⟨?_, ?_, ?_⟩
  · intro value s e hs hsf he hef hlt
    have hs' := indexOfChar_eq_of_first '[' value s hs hsf
    have he' := indexOfChar_eq_of_first ']' value e he hef
    simp only [bindStep, hs', he']
    rw [if_neg (by omega : ¬ e < s)]
    simp [isUndefined_getBindValue]
  · intro k0 rest h
    cases rest with
    | nil => exact absurd rfl h
    | cons y ys => rfl
  · intro el attrName attr t h
    simp only [bindAttrOne, h]
    exact getAttribute_setAttribute_self el attr (bindTemplate win data t)

/-- Witness for C1 at the template `[k]` and the data object with field
`k` bound to the string `A`. -/
theorem bindAttrTmpl_substitutes_first_bracket_pair_witness :
    bindStep JsValue.jsNull (JsValue.obj [("k".data, JsValue.str "A".data)]) "[k]".data =
      some ("[k]".data.take 0
        ++ jsToString (getBindValue JsValue.jsNull
            (JsValue.obj [("k".data, JsValue.str "A".data)]) (("[k]".data.drop 1).take 1))
        ++ "[k]".data.drop 3) :=
  (bindAttrTmpl_substitutes_first_bracket_pair JsValue.jsNull
      (JsValue.obj [("k".data, JsValue.str "A".data)])).1 "[k]".data 0 2
    (by decide) (by intro j hj; omega) (by decide)
    (by intro j hj; interval_cases j <;> decide) (by decide)

/-- C2: the parse loop of `bindAttrTmpl` always terminates: it performs at
most `maxLoop = 100` substitution iterations, it stops immediately (leaving
the template unchanged) whenever no further step is possible, and a step is
impossible exactly in the malformed situations: `[` missing, `]` missing,
or the first `]` strictly before the first `[`. -/
theorem bindAttrTmpl_loop_bounded (win data : JsValue) :
    (∀ value : Str, loopIterations win data maxLoop value ≤ 100)
    ∧ (∀ (value : Str) (fuel : Nat), bindStep win data value = none →
        parseLoop win data fuel value = value)
    ∧ (∀ value : Str,
        (indexOfChar value '[' = none ∨ indexOfChar value ']' = none ∨
          ∃ s e, indexOfChar value '[' = some s ∧ indexOfChar value ']' = some e ∧ e < s) →
        bindStep win data value = none) := by
  refine ⟨fun value => loopIterations_le win data maxLoop value, ?_, ?_⟩
  · intro value fuel h
    cases fuel with
    | zero => rfl
    | succ n => simp [parseLoop, h]
  · intro value h
    rcases h with h | h | ⟨s, e, hs, he, hlt⟩
    · cases h2 : indexOfChar value ']' <;> simp [bindStep, h, h2]
    · cases h1 : indexOfChar value '[' <;> simp [bindStep, h, h1]
    · simp [bindStep, hs, he, hlt]

/-- Witness for C2 on the malformed template `][`, which the loop leaves
unchanged for any remaining fuel. -/
theorem bindAttrTmpl_loop_bounded_witness :
    parseLoop JsValue.jsNull JsValue.jsNull 7 "][".data = "][".data :=
  (bindAttrTmpl_loop_bounded JsValue.jsNull JsValue.jsNull).2.1 "][".data 7 (by decide)

/-- C8: `getBindValue` never returns `undefined` (the final normalisation
maps `undefined` to `null`), so the `boundValue === undefined` fallback in
the parse loop that would substitute an empty string is unreachable; when
the bound value is `null` — in particular for a single-segment key absent
from the data object — the bracketed segment is replaced by the literal
string `null`, not by the empty string. -/
theorem getBindValue_never_undefined (win data : JsValue) :
    (∀ key : Str, getBindValue win data key ≠ .jsUndefined)
    ∧ (∀ (value : Str) (s e : Nat),
        indexOfChar value '[' = some s → indexOfChar value ']' = some e → s < e →
        getBindValue win data ((value.drop (s + 1)).take (e - (s + 1))) = .jsNull →
        bindStep win data value =
          some (value.take s ++ "null".data ++ value.drop (e + 1)))
    ∧ (∀ (fields : List (Str × JsValue)) (key : Str),
        '.' ∉ key → lookupField fields key = none →
        getBindValue win (.obj fields) key = .jsNull) := by
  refine ⟨?_, ?_, ?_⟩
  · intro key
    exact ne_undef_of_isUndefined_false (isUndefined_getBindValue win data key)
  · intro value s e hs he hlt hnull
    simp only [bindStep, hs, he]
    rw [if_neg (by omega : ¬ e < s)]
    simp [hnull, isUndefined, jsToString]
  · intro fields key hdot hlook
    have hsplit : splitOnChar '.' key = [key] := splitOnChar_eq_single '.' key hdot
    simp only [getBindValue, hsplit]
    rw [show getBindRoot win (JsValue.obj fields) [key] = JsValue.obj fields from rfl]
    simp only [List.foldl_cons, List.foldl_nil]
    rw [show isObjectNotNull (JsValue.obj fields) = true from rfl]
    simp only [if_pos]
    rw [show jsIndex (JsValue.obj fields) key = (lookupField fields key).getD .jsUndefined from rfl]
    rw [hlook]
    rfl

/-- Witness for C8: looking up the absent key `missing` in the empty data
object yields `null`. -/
theorem getBindValue_never_undefined_witness :
    getBindValue JsValue.jsNull (JsValue.obj []) "missing".data = JsValue.jsNull :=
  (getBindValue_never_undefined JsValue.jsNull (JsValue.obj [])).2.2 [] "missing".data
    (by decide) rfl

/-- C6: for every string input, `escapeHtml` returns exactly the
character-wise mapping sending `&` to `&amp;`, `"` to `&quot;`, `'` to
`&#039;`, `<` to `&lt;` and `>` to `&gt;`, leaving all other characters
unchanged; in particular, although the replacements run sequentially with
`&` first, the chained result coincides with the single-pass map, so the
entities introduced by the later replacements are never re-escaped. -/
theorem escapeHtml_charwise (s : Str) :
    escapeHtml (.str s) = .str (escapeHtmlSpec s) := by
  simp [escapeHtml, jsToString, escapeHtmlStr_eq_spec]

/-! ### `render` (utils.js lines 110-117) -/

/-- Array indexing `strings[n]` as seen by `render`: out-of-range reads
yield `undefined`. -/
def jsAt (strings : List Str) (n : Nat) : JsValue :=
  match strings.get? n with
  | some s => .str s
  | none => .jsUndefined

/-- Element coercion performed by `Array.prototype.join`: `undefined` and
`null` become the empty string, everything else its string form. -/
def arrJoinElem : JsValue → Str
  | .jsUndefined => []
  | .jsNull => []
  | v => jsToString v

/-- The loop body of `render`: for each value push its escaped form and the
following literal string part. -/
def renderLoop (strings : List Str) : List JsValue → Nat → List JsValue
  | [], _ => []
  | v :: vs, n => escapeHtml v :: jsAt strings (n + 1) :: renderLoop strings vs (n + 1)

/-- `html.join('')` on the accumulated parts. -/
def joinAll (l : List JsValue) : Str :=
  l.foldr (fun v acc => arrJoinElem v ++ acc) []

/-- `render(strings, ...values)` from utils.js: start from `strings[0]`,
interleave escaped values with the remaining string parts, and join. -/
def render (strings : List Str) (values : List JsValue) : Str :=
  joinAll (jsAt strings 0 :: renderLoop strings values 0)

/-- The specification's description of `render`: the literal string parts
appear unmodified, interleaved with the escaped interpolated values. -/
def interleaveEscaped : List Str → List JsValue → Str
  | [], _ => []
  | s :: _, [] => s
  | s :: ss, v :: vs => s ++ arrJoinElem (escapeHtml v) ++ interleaveEscaped ss vs

theorem jsAt_cons_succ (s0 : Str) (ss : List Str) (n : Nat) :
    jsAt (s0 :: ss) (n + 1) = jsAt ss n := by
  simp [jsAt]

theorem renderLoop_shift (s0 : Str) (ss : List Str) :
    ∀ (vs : List JsValue) (n : Nat),
      renderLoop (s0 :: ss) vs (n + 1) = renderLoop ss vs n := by
  intro vs
  induction vs with
  | nil => intro n; rfl
  | cons v vs ih => intro n; simp [renderLoop, jsAt_cons_succ, ih]

theorem render_cons (s0 : Str) (ss : List Str) (v : JsValue) (vs : List JsValue) :
    render (s0 :: ss) (v :: vs) = s0 ++ arrJoinElem (escapeHtml v) ++ render ss vs := by
  have h1 : jsAt (s0 :: ss) 1 = jsAt ss 0 := jsAt_cons_succ s0 ss 0
  have h2 : renderLoop (s0 :: ss) vs 1 = renderLoop ss vs 0 := renderLoop_shift s0 ss vs 0
  simp [render, renderLoop, joinAll, jsAt, arrJoinElem, jsToString, h1, h2,
    List.append_assoc]

theorem render_eq_interleave : ∀ (values : List JsValue) (strings : List Str),
    strings.length = values.length + 1 →
    render strings values = interleaveEscaped strings values := by
  intro values
  induction values with
  | nil =>
    intro strings h
    cases strings with
    | nil => simp at h
    | cons s0 ss =>
      have hss : ss = [] := List.eq_nil_of_length_eq_zero (by simpa using h)
      subst hss
      simp [render, renderLoop, joinAll, jsAt, arrJoinElem, jsToString, interleaveEscaped]
  | cons v vs ih =>
    intro strings h
    cases strings with
    | nil => simp at h
    | cons s0 ss =>
      have hss : ss.length = vs.length + 1 := by simpa using h
      rw [render_cons, ih ss hss]
      rfl

/-- C7: `escapeHtml` and `render` are pure functions of their arguments in
this model — equal inputs give equal outputs, and nothing else (DOM, window
globals, module state) appears in their signatures — and for a well-formed
tagged-template call (one more string part than values) `render` interleaves
the literal string parts unmodified with the escaped interpolated values. -/
theorem render_deterministic_interleave :
    (∀ (t1 t2 : JsValue), t1 = t2 → escapeHtml t1 = escapeHtml t2)
    ∧ (∀ (s1 s2 : List Str) (v1 v2 : List JsValue),
        s1 = s2 → v1 = v2 → render s1 v1 = render s2 v2)
    ∧ (∀ (strings : List Str) (values : List JsValue),
        strings.length = values.length + 1 →
        render strings values = interleaveEscaped strings values) := by
  refine ⟨?_, ?_, ?_⟩
  · intro t1 t2 ht; rw [ht]
  · intro s1 s2 v1 v2 hs hv; rw [hs, hv]
  · intro strings values h
    exact render_eq_interleave values strings h

/-- Witness for C7 on a two-part template with a `<` value, which is
escaped while the literal parts pass through. -/
theorem render_deterministic_interleave_witness :
    render ["a".data, "b".data] [JsValue.str "<".data] =
      interleaveEscaped ["a".data, "b".data] [JsValue.str "<".data] :=
  render_deterministic_interleave.2.2 ["a".data, "b".data] [JsValue.str "<".data] rfl

/-! ### `polyfillCustomElements` (utils.js lines 16 and 365-402) -/

/-- The process-wide state touched by the capability probe: the module-level
`polyfillIsNeeded` cache (`null` initially) together with a count of how
many times the probe (custom-element definition, probe `div` insertion and
`instanceof` check) has actually executed. -/
structure PolyfillState where
  polyfillIsNeeded : Option Bool
  probeRuns : Nat

/-- Module load state: `polyfillIsNeeded = null`, probe never run. -/
def initialPolyfillState : PolyfillState := ⟨none, 0⟩

/-- One call of `polyfillCustomElements(rootElement)`: when the cache is
still `null` the probe runs once (its outcome is the environment-supplied
`probeResult`) and fills the cache; otherwise the call leaves the state
untouched and reuses the cached boolean.  The `rootElement` argument only
selects the elements handed to the registered setup callbacks and never
influences the probe. -/
def polyfillCustomElements (probeResult : Bool) (rootElement : Nat)
    (st : PolyfillState) : PolyfillState :=
  if st.polyfillIsNeeded = none then
    { polyfillIsNeeded := some probeResult, probeRuns := st.probeRuns + 1 }
  else
    st

/-- A whole process run: fold any sequence of calls (each with its probe
outcome and root element) from the module-load state. -/
def runPolyfillCalls (calls : List (Bool × Nat)) : PolyfillState :=
  calls.foldl (fun s c => polyfillCustomElements c.1 c.2 s) initialPolyfillState

theorem polyfill_probe_invariant : ∀ (calls : List (Bool × Nat)) (st : PolyfillState),
    (st.polyfillIsNeeded = none → st.probeRuns = 0) → st.probeRuns ≤ 1 →
    (calls.foldl (fun s c => polyfillCustomElements c.1 c.2 s) st).probeRuns ≤ 1 := by
  intro calls
  induction calls with
  | nil => intro st _ h2; exact h2
  | cons c rest ih =>
    intro st h1 h2
    simp only [List.foldl_cons]
    by_cases hn : st.polyfillIsNeeded = none
    · apply ih
      · intro hcontr
        simp [polyfillCustomElements, hn] at hcontr
      · simp [polyfillCustomElements, hn, h1 hn]
    · have hst : polyfillCustomElements c.1 c.2 st = st := by
        simp [polyfillCustomElements, hn]
      rw [hst]
      exact ih st h1 h2

/-- C3: the capability probe of `polyfillCustomElements` executes at most
once per process.  On a call with the cache still `null` the cache
transitions to a boolean and the probe count increments; any later call,
with any probe environment and any root element, returns the state
unchanged; and over every possible call sequence from module load the probe
runs at most once. -/
theorem polyfill_probe_at_most_once :
    (∀ (st : PolyfillState) (r : Bool) (root : Nat), st.polyfillIsNeeded = none →
      (polyfillCustomElements r root st).polyfillIsNeeded = some r ∧
      (polyfillCustomElements r root st).probeRuns = st.probeRuns + 1)
    ∧ (∀ (st : PolyfillState) (b r : Bool) (root : Nat), st.polyfillIsNeeded = some b →
      polyfillCustomElements r root st = st)
    ∧ (∀ calls : List (Bool × Nat), (runPolyfillCalls calls).probeRuns ≤ 1) := by
  refine ⟨?_, ?_, ?_⟩
  · intro st r root h
    constructor <;> simp [polyfillCustomElements, h]
  · intro st b r root h
    simp [polyfillCustomElements, h]
  · intro calls
    exact polyfill_probe_invariant calls initialPolyfillState (fun _ => rfl) (by simp [initialPolyfillState])

/-- Witness for C3 at the module-load state: the first call caches the
probe outcome and bumps the probe count from zero to one. -/
theorem polyfill_probe_at_most_once_witness :
    (polyfillCustomElements true 0 initialPolyfillState).polyfillIsNeeded = some true ∧
    (polyfillCustomElements true 0 initialPolyfillState).probeRuns =
      initialPolyfillState.probeRuns + 1 :=
  polyfill_probe_at_most_once.1 initialPolyfillState true 0 rfl

/-! ### `componentsAreSetup` (utils.js lines 467-497) -/

/-- The cap on the number of polls in `componentsAreSetup`. -/
def maxLoops : Nat := 1000

/-- The fixed polling interval of `componentsAreSetup`, in milliseconds. -/
def pollIntervalMs : Nat := 10

/-- The `setInterval` polling loop of `componentsAreSetup`, indexed by the
tick number `loopCount`.  `notSetup k` tells whether the DOM still contains
an element with the `[not-setup]` attribute at tick `k`.  Each tick resolves
(returning the tick index) when no such element remains, or when the loop
counter has exceeded `maxLoops`; otherwise it continues.  The fuel argument
only bounds the modelled recursion and is chosen large enough below. -/
def pollLoop (notSetup : Nat → Bool) : Nat → Nat → Option Nat
  | _, 0 => none
  | loopCount, fuel + 1 =>
    if notSetup loopCount = false then some loopCount
    else if maxLoops < loopCount then some loopCount
    else pollLoop notSetup (loopCount + 1) fuel

/-- The tick at which the promise of `componentsAreSetup` resolves. -/
def componentsAreSetupResolve (notSetup : Nat → Bool) : Option Nat :=
  pollLoop notSetup 0 (maxLoops + 2)

theorem pollLoop_spec (notSetup : Nat → Bool) :
    ∀ (fuel loopCount : Nat), loopCount ≤ maxLoops + 1 → maxLoops + 2 ≤ loopCount + fuel →
    ∃ k, pollLoop notSetup loopCount fuel = some k ∧ loopCount ≤ k ∧ k ≤ maxLoops + 1 ∧
      (notSetup k = false ∨ k = maxLoops + 1) ∧
      (∀ j, loopCount ≤ j → j < k → notSetup j = true) := by
  intro fuel
  induction fuel with
  | zero => intro loopCount h1 h2; omega
  | succ n ih =>
    intro loopCount h1 h2
    by_cases hns : notSetup loopCount = false
    · refine ⟨loopCount, ?_, le_refl _, h1, Or.inl hns, ?_⟩
      · simp [pollLoop, hns]
      · intro j hj1 hj2; omega
    · by_cases hmax : maxLoops < loopCount
      · refine ⟨loopCount, ?_, le_refl _, h1, Or.inr (by omega), ?_⟩
        · simp [pollLoop, hns, hmax]
        · intro j hj1 hj2; omega
      · obtain ⟨k, hk, hk1, hk2, hk3, hk4⟩ := ih (loopCount + 1) (by omega) (by omega)
        refine ⟨k, ?_, by omega, hk2, hk3, ?_⟩
        · simp [pollLoop, hns, hmax, hk]
        · intro j hj1 hj2
          by_cases hj : j = loopCount
          · subst hj
            cases hb : notSetup j with
            | false => exact absurd hb hns
            | true => rfl
          · exact hk4 j (by omega) hj2

/-- C4: the polling loop of `componentsAreSetup` polls at the fixed
10-millisecond interval and always resolves: it never returns `none`, the
resolution tick is at most `maxLoops + 1` (the tick at which the counter
first exceeds the maximum of 1000 polls), resolution happens either because
no `[not-setup]` element remains at that tick or because the cap was hit,
and every strictly earlier poll still saw a `[not-setup]` element. -/
theorem componentsAreSetup_poll_resolves (notSetup : Nat → Bool) :
    pollIntervalMs = 10
    ∧ componentsAreSetupResolve notSetup ≠ none
    ∧ (∀ k, componentsAreSetupResolve notSetup = some k →
        k ≤ maxLoops + 1
        ∧ (notSetup k = false ∨ k = maxLoops + 1)
        ∧ (∀ j, j < k → notSetup j = true)) := by
  obtain ⟨k, hk, _, hk2, hk3, hk4⟩ := pollLoop_spec notSetup (maxLoops + 2) 0 (by omega) (by omega)
  refine ⟨rfl, ?_, ?_⟩
  · simp only [componentsAreSetupResolve, hk]
    simp
  · intro k' hk'
    simp only [componentsAreSetupResolve] at hk'
    rw [hk] at hk'
    have hkk : k = k' := by injection hk'
    subst hkk
    exact ⟨hk2, hk3, fun j hj => hk4 j (Nat.zero_le j) hj⟩

/-- Witness for C4 with no `[not-setup]` element present at all: the
promise resolves at the very first poll. -/
theorem componentsAreSetup_poll_resolves_witness :
    0 ≤ maxLoops + 1 :=
  ((componentsAreSetup_poll_resolves (fun _ => false)).2.2 0 rfl).1

/-! ### `isAttachedToDom` (utils.js lines 507-516) -/

/-- `isAttachedToDom(element)`, applied to the element's `parentNode` chain
(first entry the parent, then the grandparent, and so on; the chain ends at
the node whose `parentNode` is `null`).  The loop body first steps to the
next node and only then compares with `document`, so the comparison starts
at the grandparent. -/
def isAttachedToDom (doc : Nat) : List Nat → Bool
  | [] => false
  | _ :: rest => if rest.head? = some doc then true else isAttachedToDom doc rest

/-- C10: `isAttachedToDom` returns true exactly when the walk starting from
the element's grandparent reaches the document node; in particular an
element whose direct parent is the document (a chain consisting of the
document alone) is reported as not attached even though it is. -/
theorem isAttachedToDom_grandparent_walk (doc : Nat) (chain : List Nat) :
    (isAttachedToDom doc chain = true ↔ doc ∈ chain.drop 1)
    ∧ isAttachedToDom doc [doc] = false := by
  constructor
  · induction chain with
    | nil => simp [isAttachedToDom]
    | cons x rest ih =>
      cases rest with
      | nil => simp [isAttachedToDom]
      | cons y rest2 =>
        by_cases hy : y = doc
        · subst hy
          simp [isAttachedToDom]
        · rw [show isAttachedToDom doc (x :: y :: rest2) = isAttachedToDom doc (y :: rest2)
            from by simp [isAttachedToDom, hy]]
          rw [ih]
          simp only [List.drop_one, List.tail_cons, List.drop_succ_cons, List.drop_zero]
          constructor
          · intro h
            exact List.mem_cons_of_mem _ h
          · intro h
            rcases List.mem_cons.mp h with h1 | h1
            · exact absurd h1.symm hy
            · exact h1
  · simp [isAttachedToDom]

/-! ### `<animation-service>` (animation-service.js lines 55-79) -/

/-- Lookup of an element's `data-animate` attribute (elements identified by
numeric ids). -/
def lookupAttr : List (Nat × Str) → Nat → Option Str
  | [], _ => none
  | (k, v) :: rest, e => if k = e then some v else lookupAttr rest e

/-- Lookup of an element's class list (absent element: empty list). -/
def lookupClasses : List (Nat × List Str) → Nat → List Str
  | [], _ => []
  | (k, v) :: rest, e => if k = e then v else lookupClasses rest e

/-- Update of an element's class list. -/
def setClasses : List (Nat × List Str) → Nat → List Str → List (Nat × List Str)
  | [], e, cls => [(e, cls)]
  | (k, v) :: rest, e, cls =>
    if k = e then (k, cls) :: rest else (k, v) :: setClasses rest e cls

/-- `element.classList.add(c)`: set semantics, appending only when the
class is not already present. -/
def classListAdd (cls : List Str) (c : Str) : List Str :=
  if c ∈ cls then cls else cls ++ [c]

/-- State of the page as seen by the `<animation-service>` observer: the
(static) `data-animate` attributes, the class lists, and the set of
elements currently observed by the Intersection Observer. -/
structure AnimState where
  dataAnimate : List (Nat × Str)
  classes : List (Nat × List Str)
  observed : List Nat

/-- Delivery of one intersection entry to the observer callback of
`<animation-service>`.  The Intersection Observer API delivers entries only
for targets it currently observes, hence the membership guard.  For an
intersecting entry the callback adds the class named by the target's
`data-animate` attribute (JavaScript coerces a missing attribute to the
string `null`) and then unobserves the target; a non-intersecting entry is
ignored. -/
def deliverEntry (st : AnimState) (target : Nat) (isIntersecting : Bool) : AnimState :=
  if target ∈ st.observed then
    if isIntersecting then
      let className := (lookupAttr st.dataAnimate target).getD "null".data
      { st with
        classes := setClasses st.classes target
          (classListAdd (lookupClasses st.classes target) className),
        observed := st.observed.erase target }
    else st
  else st

/-- Delivery of a whole sequence of intersection entries. -/
def processEntries (st : AnimState) (entries : List (Nat × Bool)) : AnimState :=
  entries.foldl (fun s e => deliverEntry s e.1 e.2) st

theorem lookupClasses_setClasses_self (cls : List (Nat × List Str)) (e : Nat) (v : List Str) :
    lookupClasses (setClasses cls e v) e = v := by
  induction cls with
  | nil => simp [setClasses, lookupClasses]
  | cons p rest ih =>
    obtain ⟨k, w⟩ := p
    by_cases h : k = e
    · simp [setClasses, lookupClasses, h]
    · simp [setClasses, lookupClasses, h, ih]

theorem lookupClasses_setClasses_ne (cls : List (Nat × List Str)) (e t : Nat) (v : List Str)
    (h : t ≠ e) : lookupClasses (setClasses cls e v) t = lookupClasses cls t := by
  have he : ¬ (e = t) := fun hh => h hh.symm
  induction cls with
  | nil => simp [setClasses, lookupClasses, he]
  | cons p rest ih =>
    obtain ⟨k, w⟩ := p
    by_cases hk : k = e
    · simp [setClasses, lookupClasses, hk, he]
    · by_cases ht : k = t
      · simp [setClasses, lookupClasses, hk, ht, h]
      · simp [setClasses, lookupClasses, hk, ht, ih]

theorem mem_classListAdd (cls : List Str) (c : Str) : c ∈ classListAdd cls c := by
  by_cases h : c ∈ cls <;> simp [classListAdd, h]

theorem deliverEntry_preserves_unobserved (s : AnimState) (target t : Nat) (b : Bool)
    (h : target ∉ s.observed) :
    lookupClasses (deliverEntry s t b).classes target = lookupClasses s.classes target
    ∧ target ∉ (deliverEntry s t b).observed := by
  by_cases hmem : t ∈ s.observed
  · cases b with
    | false => simp [deliverEntry, hmem]; exact h
    | true =>
      have hne : t ≠ target := fun hh => h (hh ▸ hmem)
      constructor
      · simp only [deliverEntry, hmem, if_pos, if_true]
        exact lookupClasses_setClasses_ne _ _ _ _ (fun hh => hne hh.symm)
      · simp only [deliverEntry, hmem, if_pos, if_true]
        intro hcontr
        exact h (List.mem_of_mem_erase hcontr)
  · simp [deliverEntry, hmem]; exact h

theorem processEntries_preserves_unobserved :
    ∀ (entries : List (Nat × Bool)) (s : AnimState) (target : Nat),
    target ∉ s.observed →
    lookupClasses (processEntries s entries).classes target = lookupClasses s.classes target
    ∧ target ∉ (processEntries s entries).observed := by
  intro entries
  induction entries with
  | nil => intro s target h; exact ⟨rfl, h⟩
  | cons e rest ih =>
    intro s target h
    have hstep := deliverEntry_preserves_unobserved s target e.1 e.2 h
    have hrec := ih (deliverEntry s e.1 e.2) target hstep.2
    exact ⟨hrec.1.trans hstep.1, hrec.2⟩

/-- C5: when an intersecting entry is delivered for an observed element,
the observer callback adds the class named by the element's `data-animate`
attribute to its class list and unobserves the element; afterwards, for any
further sequence of delivered entries, the element's class list never
changes again and the element is never observed again — so the class is
added at most once and the element is never re-processed. -/
theorem animation_observer_class_once (st : AnimState) (target : Nat)
    (entries : List (Nat × Bool))
    (hobs : target ∈ st.observed) (hnd : st.observed.Nodup) :
    lookupClasses (deliverEntry st target true).classes target =
      classListAdd (lookupClasses st.classes target)
        ((lookupAttr st.dataAnimate target).getD "null".data)
    ∧ ((lookupAttr st.dataAnimate target).getD "null".data) ∈
        lookupClasses (deliverEntry st target true).classes target
    ∧ target ∉ (deliverEntry st target true).observed
    ∧ lookupClasses (processEntries (deliverEntry st target true) entries).classes target =
        lookupClasses (deliverEntry st target true).classes target
    ∧ target ∉ (processEntries (deliverEntry st target true) entries).observed := by
  have hclass : lookupClasses (deliverEntry st target true).classes target =
      classListAdd (lookupClasses st.classes target)
        ((lookupAttr st.dataAnimate target).getD "null".data) := by
    simp only [deliverEntry, hobs, if_pos, if_true]
    exact lookupClasses_setClasses_self _ _ _
  have hout : target ∉ (deliverEntry st target true).observed := by
    simp only [deliverEntry, hobs, if_pos, if_true]
    intro hcontr
    exact ((hnd.mem_erase_iff).mp hcontr).1 rfl
  have hrest := processEntries_preserves_unobserved entries (deliverEntry st target true)
    target hout
  exact ⟨hclass, hclass ▸ mem_classListAdd _ _, hout, hrest.1, hrest.2⟩

/-- Witness for C5: a single observed element with `data-animate` set to
`show`, receiving an intersecting entry and then a repeat entry. -/
theorem animation_observer_class_once_witness :
    (1 : Nat) ∉
      (processEntries
        (deliverEntry ⟨[(1, "show".data)], [], [1]⟩ 1 true) [(1, true)]).observed :=
  (animation_observer_class_once ⟨[(1, "show".data)], [], [1]⟩ 1 [(1, true)]
    (by decide) (by decide)).2.2.2.2

/-! ### Re-binding behaviour of `bindAttrTmpl` -/

theorem append_ne_of_length (A a : Str) : A ++ "-".data ++ a ≠ a := by
  intro h
  have hlen := congrArg List.length h
  have hone : ("-".data : Str).length = 1 := rfl
  simp [List.length_append, hone] at hlen
  omega

theorem base_ne_savedName (A a : Str) : A ≠ A ++ "-".data ++ a := by
  intro h
  have hlen := congrArg List.length h
  have hone : ("-".data : Str).length = 1 := rfl
  simp [List.length_append, hone] at hlen

theorem savedName_inj (A a b : Str) (h : A ++ "-".data ++ a = A ++ "-".data ++ b) :
    a = b := by
  have h1 : "-".data ++ a = "-".data ++ b := by
    have := h
    rw [List.append_assoc, List.append_assoc] at this
    exact List.append_cancel_left this
  exact List.append_cancel_left h1

/-- Invariant established for a target attribute `a` once `bindAttrOne` has
processed it: either neither the saved-template attribute nor `a` exists, or
the saved template `t` is stored and `a` holds the parsed form of `t`. -/
def BoundFact (win data : JsValue) (A : Str) (el : Attrs) (a : Str) : Prop :=
  (getAttribute el (A ++ "-".data ++ a) = none ∧ getAttribute el a = none)
  ∨ (∃ t, getAttribute el (A ++ "-".data ++ a) = some t
      ∧ getAttribute el a = some (bindTemplate win data t))

theorem bindAttrOne_eq_of_saved (win data : JsValue) (A : Str) (el : Attrs) (a t : Str)
    (h : getAttribute el (A ++ "-".data ++ a) = some t) :
    bindAttrOne win data A el a = setAttribute el a (bindTemplate win data t) := by
  have h' : getAttribute el (A ++ '-' :: a) = some t := by simpa using h
  simp [bindAttrOne, h']

theorem bindAttrOne_eq_of_none_none (win data : JsValue) (A : Str) (el : Attrs) (a : Str)
    (h : getAttribute el (A ++ "-".data ++ a) = none)
    (h2 : getAttribute el a = none) :
    bindAttrOne win data A el a = el := by
  have h' : getAttribute el (A ++ '-' :: a) = none := by simpa using h
  simp [bindAttrOne, h', h2]

theorem bindAttrOne_eq_of_none_some (win data : JsValue) (A : Str) (el : Attrs) (a v : Str)
    (h : getAttribute el (A ++ "-".data ++ a) = none)
    (h2 : getAttribute el a = some v) :
    bindAttrOne win data A el a =
      setAttribute (setAttribute el (A ++ "-".data ++ a) v) a (bindTemplate win data v) := by
  have h' : getAttribute el (A ++ '-' :: a) = none := by simpa using h
  simp [bindAttrOne, h', h2]

theorem bindAttrOne_establish (win data : JsValue) (A : Str) (el : Attrs) (a : Str) :
    BoundFact win data A (bindAttrOne win data A el a) a := by
  unfold BoundFact
  cases h : getAttribute el (A ++ "-".data ++ a) with
  | some t =>
    rw [bindAttrOne_eq_of_saved win data A el a t h]
    right
    refine ⟨t, ?_, getAttribute_setAttribute_self _ _ _⟩
    rw [getAttribute_setAttribute_ne _ _ _ _ (append_ne_of_length A a)]
    exact h
  | none =>
    cases hg : getAttribute el a with
    | none =>
      rw [bindAttrOne_eq_of_none_none win data A el a h hg]
      left
      exact ⟨h, hg⟩
    | some v =>
      rw [bindAttrOne_eq_of_none_some win data A el a v h hg]
      right
      refine ⟨v, ?_, getAttribute_setAttribute_self _ _ _⟩
      rw [getAttribute_setAttribute_ne _ _ _ _ (append_ne_of_length A a)]
      exact getAttribute_setAttribute_self _ _ _

theorem bindAttrOne_untouched (win data : JsValue) (A : Str) (el : Attrs) (a k : Str)
    (h1 : k ≠ a) (h2 : k ≠ A ++ "-".data ++ a) :
    getAttribute (bindAttrOne win data A el a) k = getAttribute el k := by
  cases h : getAttribute el (A ++ "-".data ++ a) with
  | some t =>
    rw [bindAttrOne_eq_of_saved win data A el a t h]
    exact getAttribute_setAttribute_ne _ _ _ _ h1
  | none =>
    cases hg : getAttribute el a with
    | none => rw [bindAttrOne_eq_of_none_none win data A el a h hg]
    | some v =>
      rw [bindAttrOne_eq_of_none_some win data A el a v h hg]
      rw [getAttribute_setAttribute_ne _ _ _ _ h1]
      exact getAttribute_setAttribute_ne _ _ _ _ h2

theorem boundFact_preserve (win data : JsValue) (A : Str) (el : Attrs) (a b : Str)
    (hab : a ≠ A ++ "-".data ++ b) (hba : b ≠ A ++ "-".data ++ a)
    (h : BoundFact win data A el a) :
    BoundFact win data A (bindAttrOne win data A el b) a := by
  by_cases heq : a = b
  · subst heq
    exact bindAttrOne_establish win data A el a
  · have h1 : getAttribute (bindAttrOne win data A el b) a = getAttribute el a :=
      bindAttrOne_untouched win data A el b a heq hab
    have h2 : getAttribute (bindAttrOne win data A el b) (A ++ "-".data ++ a) =
        getAttribute el (A ++ "-".data ++ a) :=
      bindAttrOne_untouched win data A el b (A ++ "-".data ++ a)
        (fun hh => hba hh.symm) (fun hh => heq (savedName_inj A a b hh))
    rcases h with ⟨hn1, hn2⟩ | ⟨t, hs1, hs2⟩
    · exact Or.inl ⟨h2.trans hn1, h1.trans hn2⟩
    · exact Or.inr ⟨t, h2.trans hs1, h1.trans hs2⟩

theorem boundFact_foldl_preserve (win data : JsValue) (A : Str) :
    ∀ (l : List Str) (el : Attrs) (a : Str),
    (∀ b ∈ l, a ≠ A ++ "-".data ++ b ∧ b ≠ A ++ "-".data ++ a) →
    BoundFact win data A el a →
    BoundFact win data A (l.foldl (bindAttrOne win data A) el) a := by
  intro l
  induction l with
  | nil => intro el a _ h; exact h
  | cons b rest ih =>
    intro el a hcond h
    simp only [List.foldl_cons]
    apply ih
    · intro c hc
      exact hcond c (List.mem_cons_of_mem b hc)
    · exact boundFact_preserve win data A el a b
        (hcond b (List.mem_cons_self b rest)).1
        (hcond b (List.mem_cons_self b rest)).2 h

theorem boundFact_foldl_establish (win data : JsValue) (A : Str) :
    ∀ (l : List Str) (el : Attrs),
    (∀ a ∈ l, ∀ b ∈ l, a ≠ A ++ "-".data ++ b) →
    ∀ a ∈ l, BoundFact win data A (l.foldl (bindAttrOne win data A) el) a := by
  intro l
  induction l with
  | nil => intro el _ a ha; exact absurd ha (List.not_mem_nil a)
  | cons b rest ih =>
    intro el hok a ha
    simp only [List.foldl_cons]
    rcases List.mem_cons.mp ha with h1 | h1
    · subst h1
      apply boundFact_foldl_preserve
      · intro c hc
        exact ⟨hok a ha c (List.mem_cons_of_mem a hc),
               hok c (List.mem_cons_of_mem a hc) a ha⟩
      · exact bindAttrOne_establish win data A el a
    · exact ih (bindAttrOne win data A el b)
        (fun x hx y hy => hok x (List.mem_cons_of_mem b hx) y (List.mem_cons_of_mem b hy))
        a h1

theorem bindAttrOne_stable (win data : JsValue) (A : Str) (el : Attrs) (a : Str)
    (h : BoundFact win data A el a) : bindAttrOne win data A el a = el := by
  rcases h with ⟨h1, h2⟩ | ⟨t, h1, h2⟩
  · exact bindAttrOne_eq_of_none_none win data A el a h1 h2
  · rw [bindAttrOne_eq_of_saved win data A el a t h1]
    exact setAttribute_eq_self el a _ h2

theorem boundFact_foldl_stable (win data : JsValue) (A : Str) :
    ∀ (l : List Str) (el : Attrs),
    (∀ a ∈ l, BoundFact win data A el a) →
    l.foldl (bindAttrOne win data A) el = el := by
  intro l
  induction l with
  | nil => intro el _; rfl
  | cons b rest ih =>
    intro el h
    simp only [List.foldl_cons]
    rw [bindAttrOne_stable win data A el b (h b (List.mem_cons_self b rest))]
    exact ih el (fun a ha => h a (List.mem_cons_of_mem b ha))

theorem foldl_getAttribute_untouched (win data : JsValue) (A : Str) :
    ∀ (l : List Str) (el : Attrs) (k : Str),
    (∀ b ∈ l, k ≠ b ∧ k ≠ A ++ "-".data ++ b) →
    getAttribute (l.foldl (bindAttrOne win data A) el) k = getAttribute el k := by
  intro l
  induction l with
  | nil => intro el k _; rfl
  | cons b rest ih =>
    intro el k h
    simp only [List.foldl_cons]
    rw [ih (bindAttrOne win data A el b) k
      (fun c hc => h c (List.mem_cons_of_mem b hc))]
    exact bindAttrOne_untouched win data A el b k
      (h b (List.mem_cons_self b rest)).1 (h b (List.mem_cons_self b rest)).2

/-- Concrete data object for the C9 counterexample: `k` bound to `A`. -/
def bindCexData : JsValue := JsValue.obj [("k".data, JsValue.str "A".data)]

/-- The C9 counterexample element: `x` lists the bound attributes
`x-href, href`, and `href` holds the template `[k]`.  The name `x-href` of
the first target attribute collides with the saved-template slot of the
second. -/
def bindCexEl : Attrs := [("x".data, "x-href,href".data), ("href".data, "[k]".data)]

/-- State of the counterexample element after the first `bindAttrTmpl`. -/
def bindCexEl1 : Attrs :=
  [("x".data, "x-href,href".data), ("href".data, "A".data), ("x-href".data, "[k]".data)]

/-- State of the counterexample element after the second `bindAttrTmpl`. -/
def bindCexEl2 : Attrs :=
  [("x".data, "x-href,href".data), ("href".data, "A".data), ("x-href".data, "A".data),
   ("x-x-href".data, "[k]".data)]

/-- C9 counterexample: re-binding is not idempotent as claimed.  With the
bound-attribute list `x-href, href`, the first call saves the `href`
template into `x-href`; the second call then treats the now-existing
`x-href` as a saved template for the target attribute `x-href` and parses
it, so the target attribute `x-href` changes from `[k]` after the first
call to `A` after the second. -/
theorem bindAttrTmpl_rebind_not_idempotent_cex :
    bindAttrTmpl JsValue.jsNull bindCexData bindCexEl "x".data = some bindCexEl1
    ∧ bindAttrTmpl JsValue.jsNull bindCexData bindCexEl1 "x".data = some bindCexEl2
    ∧ "x-href".data ∈ (splitOnChar ',' "x-href,href".data).map trimStr
    ∧ getAttribute bindCexEl2 "x-href".data ≠ getAttribute bindCexEl1 "x-href".data := by
  decide

/-- C9 (amended): re-binding with `bindAttrTmpl` is idempotent provided no
bound attribute name is the binding attribute itself and no bound attribute
name collides with a saved-template slot `attribute + '-' + attr` of
another bound attribute: then the first call saves each original template,
the second call re-parses exactly those saved templates, and the element is
left completely unchanged by the second call. -/
theorem bindAttrTmpl_rebind_idempotent (win data : JsValue) (el : Attrs)
    (attrName listStr : Str)
    (hget : getAttribute el attrName = some listStr)
    (hA : attrName ∉ (splitOnChar ',' listStr).map trimStr)
    (hok : ∀ a ∈ (splitOnChar ',' listStr).map trimStr,
        ∀ b ∈ (splitOnChar ',' listStr).map trimStr, a ≠ attrName ++ "-".data ++ b)
    (el1 : Attrs) (hfirst : bindAttrTmpl win data el attrName = some el1) :
    bindAttrTmpl win data el1 attrName = some el1 := by
  have hel1 : ((splitOnChar ',' listStr).map trimStr).foldl
      (bindAttrOne win data attrName) el = el1 := by
    simp only [bindAttrTmpl, hget] at hfirst
    exact Option.some.inj hfirst
  have hget1 : getAttribute el1 attrName = some listStr := by
    rw [← hel1]
    rw [foldl_getAttribute_untouched win data attrName _ el attrName
      (fun b hb => ⟨fun hh => hA (hh ▸ hb), base_ne_savedName attrName b⟩)]
    exact hget
  simp only [bindAttrTmpl, hget1]
  congr 1
  rw [← hel1]
  exact boundFact_foldl_stable win data attrName _ _
    (boundFact_foldl_establish win data attrName _ el hok)

/-- Witness for the amended C9 on an element whose single bound attribute
`href` holds the template `[k]`: after the first call the second call is
the identity. -/
theorem bindAttrTmpl_rebind_idempotent_witness :
    bindAttrTmpl JsValue.jsNull (JsValue.obj [("k".data, JsValue.str "A".data)])
      [("x".data, "href".data), ("href".data, "A".data), ("x-href".data, "[k]".data)]
      "x".data
    = some [("x".data, "href".data), ("href".data, "A".data), ("x-href".data, "[k]".data)] :=
  bindAttrTmpl_rebind_idempotent JsValue.jsNull
    (JsValue.obj [("k".data, JsValue.str "A".data)])
    [("x".data, "href".data), ("href".data, "[k]".data)] "x".data "href".data
    rfl (by decide) (by decide)
    [("x".data, "href".data), ("href".data, "A".data), ("x-href".data, "[k]".data)]
    (by decide)

end DataFormsJS
